import Mathlib

/-!
# Verification of the Web Result Resolution and Capture Pipeline

A shallow embedding in Lean 4 of the core logic of
`src/pyautogui/playwrightass1.py`: the redirect resolver
(`extract_bing_redirect`, together with the relevant fragment of
`urllib.parse`: `urlparse`-query extraction, `parse_qs`, `unquote`),
the candidate ranking heuristic, the selector resolution loop, the
navigator fallback chain, the snapshot/diagnostic artifact writers, and
the candidate field extraction, with theorems settling the spec claims.

Strings are modelled as Lean `String` / `List Char`; where the Python
standard library performs Unicode-aware case mapping or NFKC
normalization, the embedding uses the ASCII behaviour (all keywords and
delimiters in the program are ASCII).
-/

namespace WebPipeline

/-! ## Generic list utilities (Python `str` operations on `List Char`) -/

/-- Split a list at every occurrence of `sep`, like Python `s.split(sep)`
for a one-character separator: `splitOnChar '&' "a&&b" = ["a", "", "b"]`. -/
def splitOnChar (sep : Char) : List Char → List (List Char)
  | [] => [[]]
  | c :: t =>
    if c = sep then [] :: splitOnChar sep t
    else
      match splitOnChar sep t with
      | [] => [[c]]
      | h :: r => (c :: h) :: r

/-- Split at the first occurrence of `sep`, like Python `s.split(sep, 1)`
when `sep` occurs; `none` when it does not. -/
def splitFirstChar (sep : Char) : List Char → Option (List Char × List Char)
  | [] => none
  | c :: t =>
    if c = sep then some ([], t)
    else (splitFirstChar sep t).map (fun p => (c :: p.1, p.2))

/-- Index of the first occurrence of `needle` as a contiguous sublist,
like Python `hay.find(needle)` (with `none` for `-1`). -/
def findSub (needle : List Char) : List Char → Option Nat
  | [] => if needle.isEmpty then some 0 else none
  | c :: t =>
    if needle.isPrefixOf (c :: t) then some 0
    else (findSub needle t).map (fun n => n + 1)

/-- Containment of `needle` as a contiguous sublist, like Python
`needle in hay`. -/
def hasSubstr (needle : List Char) : List Char → Bool
  | [] => needle.isEmpty
  | c :: t => needle.isPrefixOf (c :: t) || hasSubstr needle t

/-- `findSub` succeeds exactly when `hasSubstr` holds. -/
theorem findSub_isSome_eq_hasSubstr (needle : List Char) :
    ∀ hay : List Char, (findSub needle hay).isSome = hasSubstr needle hay := by
  intro hay
  induction hay with
  | nil =>
    by_cases h : needle.isEmpty <;> simp [findSub, hasSubstr, h]
  | cons c t ih =>
    by_cases h : needle.isPrefixOf (c :: t) <;>
      simp [findSub, hasSubstr, h, ih]

/-- Sublist containment is preserved by extending the haystack on the
right. -/
theorem hasSubstr_append_left (needle a b : List Char)
    (h : hasSubstr needle a = true) : hasSubstr needle (a ++ b) = true := by
  induction a with
  | nil =>
    simp [hasSubstr] at h
    cases b with
    | nil => simpa [hasSubstr]
    | cons x t => simp [hasSubstr, h, List.isPrefixOf]
  | cons c t ih =>
    simp only [hasSubstr, Bool.or_eq_true] at h ⊢
    rcases h with h | h
    · left
      have hp : needle <+: (c :: t) := by
        simpa using List.isPrefixOf_iff_prefix.mp h
      exact List.isPrefixOf_iff_prefix.mpr (by
        simpa using hp.trans (List.prefix_append (c :: t) b))
    · right
      exact ih h

/-! ## `urllib.parse.unquote`

Percent-decoding: `%XX` hex escapes are decoded to bytes, maximal runs of
decoded bytes are then UTF-8-decoded with the `replace` error handler
(each maximal ill-formed subpart becomes one U+FFFD), and malformed `%`
escapes are passed through literally, following CPython's
`unquote` / `unquote_to_bytes`. -/

/-- Hex digit test, Python `string.hexdigits` membership. -/
def isHexDig (c : Char) : Bool :=
  c.isDigit || ('a' ≤ c && c ≤ 'f') || ('A' ≤ c && c ≤ 'F')

/-- Value of a hex digit. -/
def hexVal (c : Char) : Nat :=
  if c.isDigit then c.toNat - 48
  else if 'a' ≤ c && c ≤ 'f' then c.toNat - 87
  else c.toNat - 55

/-- The Unicode replacement character U+FFFD. -/
def replChar : Char := Char.ofNat 0xFFFD

/-- UTF-8 continuation byte test: `0x80 ≤ b ≤ 0xBF`. -/
def contByte (b : Nat) : Bool := 0x80 ≤ b && b ≤ 0xBF

/-- Constraint on the first continuation byte of a 3-byte sequence
(excludes overlong encodings and surrogates). -/
def cont3ok (b c1 : Nat) : Bool :=
  if b = 0xE0 then 0xA0 ≤ c1 && c1 ≤ 0xBF
  else if b = 0xED then 0x80 ≤ c1 && c1 ≤ 0x9F
  else contByte c1

/-- Constraint on the first continuation byte of a 4-byte sequence
(excludes overlong encodings and values above U+10FFFF). -/
def cont4ok (b c1 : Nat) : Bool :=
  if b = 0xF0 then 0x90 ≤ c1 && c1 ≤ 0xBF
  else if b = 0xF4 then 0x80 ≤ c1 && c1 ≤ 0x8F
  else contByte c1

/-- One step of UTF-8 decoding with the `replace` error handler: consume
one scalar value's bytes (or one maximal ill-formed subpart) from
`b :: rest`, producing the decoded character (or U+FFFD) and the
remaining bytes. -/
def utf8Step (b : Nat) (rest : List Nat) : Char × List Nat :=
  if b < 0x80 then (Char.ofNat b, rest)
  else if 0xC2 ≤ b && b ≤ 0xDF then
    match rest with
    | c1 :: r2 =>
      if contByte c1 then (Char.ofNat ((b - 0xC0) * 0x40 + (c1 - 0x80)), r2)
      else (replChar, c1 :: r2)
    | [] => (replChar, [])
  else if 0xE0 ≤ b && b ≤ 0xEF then
    match rest with
    | c1 :: c2 :: r3 =>
      if cont3ok b c1 && contByte c2 then
        (Char.ofNat ((b - 0xE0) * 0x1000 + (c1 - 0x80) * 0x40 + (c2 - 0x80)), r3)
      else if cont3ok b c1 then (replChar, c2 :: r3)
      else (replChar, c1 :: c2 :: r3)
    | [c1] => if cont3ok b c1 then (replChar, []) else (replChar, [c1])
    | [] => (replChar, [])
  else if 0xF0 ≤ b && b ≤ 0xF4 then
    match rest with
    | c1 :: c2 :: c3 :: r4 =>
      if cont4ok b c1 && contByte c2 && contByte c3 then
        (Char.ofNat ((b - 0xF0) * 0x40000 + (c1 - 0x80) * 0x1000 +
          (c2 - 0x80) * 0x40 + (c3 - 0x80)), r4)
      else if cont4ok b c1 && contByte c2 then (replChar, c3 :: r4)
      else if cont4ok b c1 then (replChar, c2 :: c3 :: r4)
      else (replChar, c1 :: c2 :: c3 :: r4)
    | [c1, c2] =>
      if cont4ok b c1 && contByte c2 then (replChar, [])
      else if cont4ok b c1 then (replChar, [c2])
      else (replChar, [c1, c2])
    | [c1] => if cont4ok b c1 then (replChar, []) else (replChar, [c1])
    | [] => (replChar, [])
  else (replChar, rest)

/-- Each decoding step consumes at least the leading byte. -/
theorem utf8Step_snd_length (b : Nat) (rest : List Nat) :
    (utf8Step b rest).2.length ≤ rest.length := by
  unfold utf8Step
  split
  · simp
  split
  · match rest with
    | [] => simp
    | c1 :: r2 => dsimp only; split <;> simp
  split
  · match rest with
    | [] => simp
    | [c1] => dsimp only; split <;> simp
    | c1 :: c2 :: r3 => dsimp only; split <;> (try split) <;> simp_arith
  split
  · match rest with
    | [] => simp
    | [c1] => dsimp only; split <;> simp
    | [c1, c2] => dsimp only; split <;> (try split) <;> simp_arith
    | c1 :: c2 :: c3 :: r4 =>
      dsimp only; split <;> (try split) <;> (try split) <;> simp_arith
  · simp

/-- Decoding loop, structurally recursive on a fuel argument so that the
kernel can evaluate it; `fuel = bs.length` always suffices because each
step consumes at least one byte (`utf8Step_snd_length`). -/
def utf8DecodeAux : Nat → List Nat → List Char
  | 0, _ => []
  | _ + 1, [] => []
  | fuel + 1, b :: rest =>
    (utf8Step b rest).1 :: utf8DecodeAux fuel (utf8Step b rest).2

/-- UTF-8 decoding of a byte list with the `replace` error handler,
CPython's `bytes.decode("utf-8", "replace")`. -/
def utf8DecodeReplace (bs : List Nat) : List Char := utf8DecodeAux bs.length bs

/-- The fuel bound is exact: any fuel of at least `bs.length` decodes all
of `bs`, so the fuel-indexed loop computes a fuel-independent value. -/
theorem utf8DecodeAux_fuel_adequate (fuel : Nat) :
    ∀ bs : List Nat, bs.length ≤ fuel →
      utf8DecodeAux fuel bs = utf8DecodeAux bs.length bs := by
  induction fuel using Nat.strong_induction_on with
  | _ fuel ih =>
    intro bs h
    match fuel, bs with
    | fuel, [] => cases fuel <;> rfl
    | 0, b :: rest => simp at h
    | n + 1, b :: rest =>
      have hs := utf8Step_snd_length b rest
      simp only [List.length_cons] at h
      simp only [utf8DecodeAux, List.length_cons]
      congr 1
      rw [ih n (by omega) _ (by omega),
        ih rest.length (by omega) _ (by omega)]

/-- Decoding a non-empty byte list yields a non-empty string. -/
theorem utf8DecodeReplace_ne_nil (b : Nat) (rest : List Nat) :
    utf8DecodeReplace (b :: rest) ≠ [] := by
  simp [utf8DecodeReplace, utf8DecodeAux]

/-- Scanning loop of `unquote`: `buf` holds pending decoded bytes (in
reverse) of the current maximal run of `%XX` escapes; a literal
character or the end of input flushes and UTF-8-decodes the run. -/
def unquoteLoop : List Char → List Nat → List Char
  | [], buf => utf8DecodeReplace buf.reverse
  | '%' :: h1 :: h2 :: rest, buf =>
    if isHexDig h1 && isHexDig h2 then
      unquoteLoop rest ((hexVal h1 * 16 + hexVal h2) :: buf)
    else utf8DecodeReplace buf.reverse ++ '%' :: unquoteLoop (h1 :: h2 :: rest) []
  | '%' :: rest, buf =>
    utf8DecodeReplace buf.reverse ++ '%' :: unquoteLoop rest []
  | c :: rest, buf =>
    utf8DecodeReplace buf.reverse ++ c :: unquoteLoop rest []

/-- `urllib.parse.unquote` on `List Char`. -/
def unquoteL (s : List Char) : List Char := unquoteLoop s []

/-- `urllib.parse.unquote` on `String`. -/
def unquote (s : String) : String := ⟨unquoteL s.data⟩

/-! ## `urllib.parse.urlparse` — extraction of the `query` component

Follows CPython `urlsplit`: strip the unsafe bytes tab/CR/LF, strip a
well-formed scheme, strip the netloc after a leading `//` (raising
`ValueError` — modelled as `Except.error` — when the netloc contains a
`[` without `]` or vice versa, the stable "Invalid IPv6 URL" check),
split off the fragment at the first `#`, and return what follows the
first `?` of the remainder.  The additional bracketed-host and netloc
NFKC checks of newer CPython versions are not modelled; they can only
reject more inputs, and all of them are caught by the same `except`
in `extract_bing_redirect`. -/

/-- Characters allowed in a URL scheme after the initial letter. -/
def schemeChar (c : Char) : Bool :=
  c.isAlpha || c.isDigit || c = '+' || c = '-' || c = '.'

/-- Remove a leading `scheme:` when the part before the first `:` is a
well-formed scheme (CPython `urlsplit`). -/
def stripScheme (url : List Char) : List Char :=
  match findSub [':'] url with
  | none => url
  | some i =>
    if 0 < i && (url.take 1).all Char.isAlpha &&
        ((url.take i).drop 1).all schemeChar
    then url.drop (i + 1) else url

/-- Not a netloc delimiter (`/`, `?`, `#`). -/
def notNetlocDelim (c : Char) : Bool := !(c = '/' || c = '?' || c = '#')

/-- Remove a leading `//netloc`, failing on mismatched square brackets
(CPython `urlsplit`'s "Invalid IPv6 URL" `ValueError`). -/
def splitNetlocE (url : List Char) : Except Unit (List Char) :=
  if url.take 2 = ['/', '/'] then
    let netloc := (url.drop 2).takeWhile notNetlocDelim
    let rest := (url.drop 2).dropWhile notNetlocDelim
    if (netloc.contains '[' && !netloc.contains ']') ||
        (netloc.contains ']' && !netloc.contains '[') then Except.error ()
    else Except.ok rest
  else Except.ok url

/-- The `query` component of `urlparse(href)`, or `Except.error` when
`urlparse` raises. -/
def urlparseQueryE (href : List Char) : Except Unit (List Char) :=
  let u0 := href.filter (fun c => !(c = '\t' || c = '\r' || c = '\n'))
  let u1 := stripScheme u0
  match splitNetlocE u1 with
  | Except.error e => Except.error e
  | Except.ok u2 =>
    let preFrag := u2.takeWhile (fun c => c ≠ '#')
    match splitFirstChar '?' preFrag with
    | some p => Except.ok p.2
    | none => Except.ok []

/-! ## `urllib.parse.parse_qs`

With the defaults used by the program: `keep_blank_values=False`,
`strict_parsing=False`, separator `'&'`; names and values have `+`
replaced by space and are then percent-decoded. -/

/-- Python `s.replace('+', ' ')`. -/
def plusToSpace (s : List Char) : List Char :=
  s.map fun c => if c = '+' then ' ' else c

/-- Parse one `name=value` chunk of a query string; `none` when the
chunk is skipped (empty chunk, no `=`, or blank value). -/
def qsPair (nv : List Char) : Option (List Char × List Char) :=
  if nv = [] then none
  else
    match splitFirstChar '=' nv with
    | none => none
    | some p =>
      if p.2 = [] then none
      else some (unquoteL (plusToSpace p.1), unquoteL (plusToSpace p.2))

/-- `urllib.parse.parse_qsl` with the program's default arguments; the
`parse_qs` dictionary is recovered by grouping, and only membership and
the first `u` value are consumed by the program. -/
def parseQsl (qs : List Char) : List (List Char × List Char) :=
  if qs = [] then [] else (splitOnChar '&' qs).filterMap qsPair

/-- First value of the parameter named `u`: `qs['u'][0]` guarded by
`'u' in qs and qs['u']` (a `parse_qs` value list is never empty when the
key is present). -/
def findUVal (l : List (List Char × List Char)) : Option (List Char) :=
  (l.find? (fun p => p.1 == ['u'])).map Prod.snd

/-! ## The Redirect Resolver: `extract_bing_redirect` -/

/-- The literal `"u="`. -/
def uEq : List Char := ['u', '=']

/-- `extract_bing_redirect` on `List Char`, translated line by line from
`src/pyautogui/playwrightass1.py:25`: empty input is returned unchanged;
a `u` query parameter, when the parse succeeds and yields one, is
percent-decoded and returned; else a crude `u=`-substring fallback takes
the run up to the next `&` and percent-decodes it; a parse failure (the
`except` around the whole body) returns the input unchanged, skipping
the fallback. -/
def extractBingRedirectL (href : List Char) : List Char :=
  if href = [] then href
  else
    match urlparseQueryE href with
    | Except.error _ => href
    | Except.ok q =>
      match findUVal (parseQsl q) with
      | some v => unquoteL v
      | none =>
        match findSub uEq href with
        | some i => unquoteL ((href.drop (i + 2)).takeWhile (fun c => c ≠ '&'))
        | none => href

/-- `extract_bing_redirect` on `String`. -/
def extract_bing_redirect (href : String) : String :=
  ⟨extractBingRedirectL href.data⟩

/-- Whether `urlparse(href)` raises inside `extract_bing_redirect`. -/
def parseFails (href : String) : Bool :=
  match urlparseQueryE href.data with
  | Except.error _ => true
  | Except.ok _ => false

/-- The first `u` parameter value seen by `extract_bing_redirect`
(`none` when the parse fails or no non-blank `u` parameter exists). -/
def uParam (href : String) : Option String :=
  match urlparseQueryE href.data with
  | Except.error _ => none
  | Except.ok q => (findUVal (parseQsl q)).map (fun v => ⟨v⟩)

/-- The raw value taken by the `u=`-substring fallback: the run after
the first `u=` up to the next `&` (or the end of the string). -/
def fallbackVal (href : String) : String :=
  match findSub uEq href.data with
  | some i => ⟨(href.data.drop (i + 2)).takeWhile (fun c => c ≠ '&')⟩
  | none => ""

/-- Substring containment on `String`, Python `needle in hay`. -/
def hasSubstrS (needle hay : String) : Bool := hasSubstr needle.data hay.data

/-! ## The Candidate Ranking Heuristic

`main`'s selection loop (`playwrightass1.py:120-151`) over the extracted
`(title, href)` candidates: first match wins, falling back to index 0,
`none` on an empty candidate list.  Lower-casing is ASCII
(`Char.toLower`), like Python `str.lower` on the ASCII keywords and
typical hrefs involved. -/

/-- Python `s.lower()` (ASCII case mapping). -/
def pyLower (s : List Char) : List Char := s.map Char.toLower

/-- The keyword test of the loop body (`playwrightass1.py:133-135`):
`scorecard` in href or title, `espncricinfo` in href, `cricbuzz` in
href, `cricket` in title or href. -/
def matchesKeyword (title href : String) : Bool :=
  let lh := pyLower href.data
  let lt := pyLower title.data
  hasSubstr "scorecard".data lh || hasSubstr "scorecard".data lt ||
  hasSubstr "espncricinfo".data lh || hasSubstr "cricbuzz".data lh ||
  hasSubstr "cricket".data lt || hasSubstr "cricket".data lh

/-- The scanning loop: index of the first candidate passing the keyword
test, counting from `k`. -/
def chooseCandidateAux (k : Nat) : List (String × String) → Option Nat
  | [] => none
  | c :: rest =>
    if matchesKeyword c.1 c.2 then some k
    else chooseCandidateAux (k + 1) rest

/-- The whole selection (`playwrightass1.py:120-151`): first keyword
match, else index 0 when candidates exist, else no selection. -/
def chooseCandidate (cands : List (String × String)) : Option Nat :=
  match chooseCandidateAux 0 cands with
  | some i => some i
  | none => if cands.isEmpty then none else some 0

/-- The ranking test as claim C2 words it: a logical OR across href and
title for every keyword, including the trusted-domain substrings. -/
def claimMatches (title href : String) : Bool :=
  ["scorecard", "espncricinfo", "cricbuzz", "cricket"].any fun k =>
    hasSubstr k.data (pyLower href.data) || hasSubstr k.data (pyLower title.data)

/-! ## The Selector Resolution Engine

The presence loop (`playwrightass1.py:91-98`): `wait_for_selector` on
each selector expression in order, `break` on the first success, a
`TimeoutError` moves to the next expression.  The browser capability is
abstracted as an oracle `hits : String → Bool` saying whether a
selector matches within its own timeout. -/

/-- The first selector reported found, if any. -/
def firstMatching (hits : String → Bool) : List String → Option String
  | [] => none
  | s :: rest => if hits s then some s else firstMatching hits rest

/-- The selectors the loop actually attempts, in order. -/
def attemptedSelectors (hits : String → Bool) : List String → List String
  | [] => []
  | s :: rest =>
    if hits s then [s] else s :: attemptedSelectors hits rest

/-! ## The Navigator

The tiered navigation of `playwrightass1.py:160-192`: a resolved
absolute target is loaded directly; otherwise the chosen element is
clicked, and a click failure falls back to a script-level navigation
with the raw href (when non-empty); every branch then proceeds to the
snapshot. -/

/-- An observable navigation-phase action. -/
inductive NavAction where
  | gotoDirect (url : String)
  | click
  | jsNavigate (href : String)
  | snapshot
deriving DecidableEq, Repr

/-- `target.startswith("http://") or target.startswith("https://")`. -/
def isAbsoluteUrl (t : String) : Bool :=
  "http://".data.isPrefixOf t.data || "https://".data.isPrefixOf t.data

/-- The sequence of actions the navigator attempts for the chosen
candidate's raw `chosenHref`; `clickOk` and `jsOk` abstract whether the
click and the script navigation succeed (a failed script navigation is
swallowed by `except: pass`, so `jsOk` never changes the trace). -/
def navigatorTrace (chosenHref : String) (clickOk _jsOk : Bool) : List NavAction :=
  let target := extract_bing_redirect chosenHref
  if !target.data.isEmpty && isAbsoluteUrl target then
    [NavAction.gotoDirect target, NavAction.snapshot]
  else if clickOk then [NavAction.click, NavAction.snapshot]
  else if !chosenHref.data.isEmpty then
    [NavAction.click, NavAction.jsNavigate chosenHref, NavAction.snapshot]
  else [NavAction.click, NavAction.snapshot]

/-! ## Snapshot Recorder and terminal pipeline states

The artifact writes of `playwrightass1.py:100-109` (no-results
diagnostic) and `190-203` (success snapshot), with the timestamp
captured once per terminal state. -/

/-- A filesystem artifact written by the run. -/
inductive Artifact where
  | screenshotFile (name : String)
  | htmlFile (name : String)
deriving DecidableEq, Repr

/-- How the run ends. -/
inductive RunOutcome where
  | noResults
  | noCandidate
  | completed
deriving DecidableEq, Repr

/-- The terminal behaviour of `main`: when no selector matched, one
`bing_noresults_<ts>.html` dump and stop; when candidates were
extracted, the chosen-candidate path ends in one screenshot and one
markup file sharing a single timestamp; when no candidate exists the
run stops with no artifact. -/
def mainModel (resultsFound : Bool) (cands : List (String × String))
    (ts : Nat) : RunOutcome × List Artifact :=
  if !resultsFound then
    (RunOutcome.noResults,
      [Artifact.htmlFile ("bing_noresults_" ++ toString ts ++ ".html")])
  else
    match chooseCandidate cands with
    | none => (RunOutcome.noCandidate, [])
    | some _ =>
      (RunOutcome.completed,
        [Artifact.screenshotFile ("scorecard_" ++ toString ts ++ ".png"),
         Artifact.htmlFile ("scorecard_" ++ toString ts ++ ".html")])

/-! ## Candidate field extraction

The per-element reads of `playwrightass1.py:120-146`.  An element is
abstracted by what its two reads do: `innerText` is `inner_text()`
(`Except.error` = the call raised), `hrefAttr` is
`get_attribute("href")` (`Except.ok none` = Python `None`). -/

/-- The observable behaviour of one result element. -/
structure ElemProbe where
  innerText : Except Unit String
  hrefAttr : Except Unit (Option String)

/-- Python whitespace stripped by `str.strip()` (ASCII part). -/
def isPySpace (c : Char) : Bool :=
  c = ' ' || c = '\t' || c = '\n' || c = '\r' || c = '\x0b' || c = '\x0c'

/-- Python `s.strip()`. -/
def pyStrip (s : List Char) : List Char :=
  ((s.dropWhile isPySpace).reverse.dropWhile isPySpace).reverse

/-- Title extraction inside the scanning loop: `inner_text().strip()`
with the `except` degrading to `""` (`playwrightass1.py:122-125`). -/
def scanTitle (e : ElemProbe) : String :=
  match e.innerText with
  | Except.ok s => ⟨pyStrip s.data⟩
  | Except.error _ => ""

/-- Href extraction inside the scanning loop:
`get_attribute("href") or ""` with the `except` degrading to `""`
(`playwrightass1.py:126-129`). -/
def scanHref (e : ElemProbe) : String :=
  match e.hrefAttr with
  | Except.ok (some s) => s
  | Except.ok none => ""
  | Except.error _ => ""

/-- The whole extraction-and-selection pass (`playwrightass1.py:120-151`)
over the element probes: the scanning loop extracts resiliently; the
index-0 fallback (`playwrightass1.py:142-146`) re-reads the first
element WITHOUT a `try`, so a raising read propagates (`Except.error`,
caught only by the top-level handler, aborting the run before
navigation).  A `None` href on the fallback path is represented as `""`
(the code stores `None`, which every later use treats exactly like
`""`). -/
def extractionRun (elems : List ElemProbe) :
    Except Unit (Option (Nat × String × String)) :=
  let cands := elems.map (fun e => (scanTitle e, scanHref e))
  match chooseCandidateAux 0 cands with
  | some i => Except.ok (some (i, ((cands.get? i).getD ("", ""))))
  | none =>
    match elems with
    | [] => Except.ok none
    | e0 :: _ =>
      match e0.innerText with
      | Except.error _ => Except.error ()
      | Except.ok t =>
        match e0.hrefAttr with
        | Except.error _ => Except.error ()
        | Except.ok h => Except.ok (some (0, ⟨pyStrip t.data⟩, h.getD ""))

/-! ## The provider search URL -/

/-- The fixed query of the program. -/
def QUERY : String := "sa vs ind final scorecard"

/-- Python `q.replace(" ", "+")`. -/
def spaceToPlus (s : List Char) : List Char :=
  s.map fun c => if c = ' ' then '+' else c

/-- The search URL construction of `playwrightass1.py:66`:
`"https://www.bing.com/search?q=" + q.replace(" ", "+")`. -/
def searchUrl (q : String) : String :=
  ⟨"https://www.bing.com/search?q=".data ++ spaceToPlus q.data⟩

/-- UTF-8 encoding of one character. -/
def utf8EncodeChar (c : Char) : List Nat :=
  let n := c.toNat
  if n < 0x80 then [n]
  else if n < 0x800 then [0xC0 + n / 0x40, 0x80 + n % 0x40]
  else if n < 0x10000 then
    [0xE0 + n / 0x1000, 0x80 + (n / 0x40) % 0x40, 0x80 + n % 0x40]
  else
    [0xF0 + n / 0x40000, 0x80 + (n / 0x1000) % 0x40,
     0x80 + (n / 0x40) % 0x40, 0x80 + n % 0x40]

/-- Upper-case hex digit of a value below 16. -/
def hexDigitUpper (n : Nat) : Char :=
  if n < 10 then Char.ofNat (48 + n) else Char.ofNat (55 + n)

/-- `%XX` escape of one byte. -/
def percentByte (b : Nat) : List Char :=
  ['%', hexDigitUpper (b / 16), hexDigitUpper (b % 16)]

/-- Characters quote_plus leaves unescaped: the always-safe set
`ALPHA / DIGIT / "_" / "." / "-" / "~"` (with `safe=''`). -/
def isSafeQueryChar (c : Char) : Bool :=
  c.isAlphanum || c = '_' || c = '.' || c = '-' || c = '~'

/-- Modelled from the spec: the spec's "URL-encoding" of the query,
read as the standard `application/x-www-form-urlencoded` encoding
(`urllib.parse.quote_plus`): spaces become `+`, safe characters stay,
everything else becomes `%XX` escapes of its UTF-8 bytes.  The source
itself does not contain such an encoder (it only replaces spaces),
which is what claim C9 is about. -/
def urlEncodeQuery (q : String) : String :=
  ⟨(q.data.map fun c =>
      if isSafeQueryChar c then [c]
      else if c = ' ' then ['+']
      else ((utf8EncodeChar c).map percentByte).flatten).flatten⟩

/-! ## Supporting lemmas -/

/-- A string is non-empty exactly when its character list is. -/
theorem string_ne_empty_iff (s : String) : s ≠ "" ↔ s.data ≠ [] := by
  rw [ne_eq, String.ext_iff]

/-- `unquote` never empties a non-empty input (each literal character
contributes itself, each `%XX` run decodes to at least one character). -/
theorem unquoteLoop_ne_nil (s : List Char) (buf : List Nat)
    (h : s ≠ [] ∨ buf ≠ []) : unquoteLoop s buf ≠ [] := by
  induction s, buf using unquoteLoop.induct with
  | case1 buf =>
    rcases h with h | h
    · exact absurd rfl h
    · match buf with
      | b :: rest =>
        have : (b :: rest).reverse ≠ [] := by simp
        match hr : (b :: rest).reverse with
        | [] => exact absurd hr this
        | x :: xs =>
          simp only [unquoteLoop, hr]
          exact utf8DecodeReplace_ne_nil x xs
  | case2 h1 h2 rest buf hhex ih =>
    simp only [unquoteLoop, hhex, if_true]
    exact ih (Or.inr (by simp))
  | case3 h1 h2 rest buf hhex =>
    simp only [unquoteLoop, hhex, if_false]
    simp
  | case4 rest buf hne =>
    simp only [unquoteLoop]
    simp
  | case5 c rest buf hne =>
    simp only [unquoteLoop]
    simp

/-- `unquoteL` maps non-empty to non-empty. -/
theorem unquoteL_ne_nil (s : List Char) (h : s ≠ []) : unquoteL s ≠ [] :=
  unquoteLoop_ne_nil s [] (Or.inl h)

/-- `unquoteL` is empty exactly on the empty input. -/
theorem unquoteL_eq_nil_iff (s : List Char) : unquoteL s = [] ↔ s = [] := by
  constructor
  · intro h
    by_contra hne
    exact unquoteL_ne_nil s hne h
  · intro h
    subst h
    rfl

/-- Every value produced by `parseQsl` is non-empty (blank values are
dropped by `keep_blank_values=False`). -/
theorem parseQsl_val_ne_nil (q : List Char) :
    ∀ p ∈ parseQsl q, p.2 ≠ [] := by
  intro p hp
  unfold parseQsl at hp
  split at hp
  · simp at hp
  · obtain ⟨nv, _, hpair⟩ := List.mem_filterMap.mp hp
    unfold qsPair at hpair
    split at hpair
    · simp at hpair
    · split at hpair
      · simp at hpair
      · rename_i p' hsplit
        split at hpair
        · simp at hpair
        · rename_i hv
          have hp2 : p.2 = unquoteL (plusToSpace p'.2) := by
            rw [← Option.some.inj hpair]
          rw [hp2]
          apply unquoteL_ne_nil
          cases hp2' : p'.2 with
          | nil => exact absurd hp2' hv
          | cons a b => simp [plusToSpace, hp2']

/-- The scanning loop finds nothing exactly when no candidate passes the
keyword test. -/
theorem chooseCandidateAux_eq_none (cs : List (String × String)) :
    ∀ k, chooseCandidateAux k cs = none ↔
      ∀ c ∈ cs, matchesKeyword c.1 c.2 = false := by
  induction cs with
  | nil => intro k; simp [chooseCandidateAux]
  | cons c rest ih =>
    intro k
    by_cases m : matchesKeyword c.1 c.2 = true
    · simp [chooseCandidateAux, m]
    · have m' : matchesKeyword c.1 c.2 = false := by
        simpa using m
      simp [chooseCandidateAux, m', ih]

/-- What a successful scan means: the found index points at the first
candidate passing the keyword test. -/
theorem chooseCandidateAux_eq_some (cs : List (String × String)) :
    ∀ k i, chooseCandidateAux k cs = some i →
      k ≤ i ∧
      ∃ c, cs.get? (i - k) = some c ∧ matchesKeyword c.1 c.2 = true ∧
        ∀ j d, j < i - k → cs.get? j = some d →
          matchesKeyword d.1 d.2 = false := by
  induction cs with
  | nil => intro k i h; simp [chooseCandidateAux] at h
  | cons c rest ih =>
    intro k i h
    by_cases m : matchesKeyword c.1 c.2 = true
    · simp only [chooseCandidateAux, m, if_true, Option.some.injEq] at h
      subst h
      refine ⟨le_refl k, c, ?_, m, ?_⟩
      · simp
      · intro j d hj
        omega
    · have m' : matchesKeyword c.1 c.2 = false := by
        simpa using m
      have h' : chooseCandidateAux (k + 1) rest = some i := by
        simpa [chooseCandidateAux, m'] using h
      obtain ⟨hki, c', hc', hm', hprev⟩ := ih (k + 1) i h'
      refine ⟨by omega, c', ?_, hm', ?_⟩
      · have hik : i - k = (i - (k + 1)) + 1 := by omega
        rw [hik]
        simpa using hc'
      · intro j d hj hd
        cases j with
        | zero =>
          simp only [List.get?_cons_zero, Option.some.injEq] at hd
          rw [← hd]
          exact m'
        | succ j' =>
          refine hprev j' d (by omega) ?_
          simpa using hd

/-- `"u="` as a character list. -/
theorem uEq_eq_data : ("u=" : String).data = uEq := rfl

/-- Branch lemma: a parse failure returns the input unchanged (the `except`
skips the rest of the body). -/
theorem extract_of_parse_error (href : String) (hne : href.data ≠ [])
    (hq : urlparseQueryE href.data = Except.error ()) :
    extract_bing_redirect href = href := by
  unfold extract_bing_redirect extractBingRedirectL
  rw [if_neg hne, hq]

/-- Branch lemma: a `u` parameter wins and is percent-decoded once more. -/
theorem extract_of_uParam_found (href : String) (hne : href.data ≠ [])
    (q w : List Char) (hq : urlparseQueryE href.data = Except.ok q)
    (hu : findUVal (parseQsl q) = some w) :
    extract_bing_redirect href = ⟨unquoteL w⟩ := by
  unfold extract_bing_redirect extractBingRedirectL
  rw [if_neg hne, hq]
  dsimp only
  rw [hu]

/-- Branch lemma: the `u=`-substring fallback decodes the run up to the
next `&`. -/
theorem extract_of_fallback (href : String) (hne : href.data ≠ [])
    (q : List Char) (i : Nat) (hq : urlparseQueryE href.data = Except.ok q)
    (hu : findUVal (parseQsl q) = none)
    (hf : findSub uEq href.data = some i) :
    extract_bing_redirect href =
      ⟨unquoteL ((href.data.drop (i + 2)).takeWhile (fun c => c ≠ '&'))⟩ := by
  unfold extract_bing_redirect extractBingRedirectL
  rw [if_neg hne, hq]
  dsimp only
  rw [hu]
  dsimp only
  rw [hf]

/-- Branch lemma: no `u` parameter and no `u=` substring returns the
input unchanged. -/
theorem extract_of_no_u (href : String) (hne : href.data ≠ [])
    (q : List Char) (hq : urlparseQueryE href.data = Except.ok q)
    (hu : findUVal (parseQsl q) = none)
    (hf : findSub uEq href.data = none) :
    extract_bing_redirect href = href := by
  unfold extract_bing_redirect extractBingRedirectL
  rw [if_neg hne, hq]
  dsimp only
  rw [hu]
  dsimp only
  rw [hf]

/-- A found `u` value comes from a `parse_qs` pair, hence is non-empty. -/
theorem findUVal_ne_nil (q w : List Char)
    (hu : findUVal (parseQsl q) = some w) : w ≠ [] := by
  unfold findUVal at hu
  cases hfind : (parseQsl q).find? (fun p => p.1 == ['u']) with
  | none => rw [hfind] at hu; simp at hu
  | some p =>
    rw [hfind] at hu
    simp only [Option.map_some'] at hu
    have hmem := List.mem_of_find?_eq_some hfind
    have := parseQsl_val_ne_nil q p hmem
    rw [← Option.some.inj hu]
    exact this

/-! ## Claim theorems -/

/-- **C1** (amended).  For every non-empty `href`, `extract_bing_redirect`
returns: the percent-decode of the first `u` query parameter value when
URL parsing succeeds and yields one; otherwise, when parsing succeeded
and the literal substring `u=` occurs in `href`, the percent-decode of
the run after the first `u=` up to the next `&` (or the end); `href`
unchanged when parsing succeeded and neither applies; and — the
amendment — `href` unchanged when URL parsing raises, in which case the
`u=`-substring fallback is NOT attempted. -/
theorem C1_redirect_resolver_cases (href : String) (h : href ≠ "") :
    (parseFails href = true → extract_bing_redirect href = href) ∧
    (∀ v, uParam href = some v → extract_bing_redirect href = unquote v) ∧
    (parseFails href = false → uParam href = none →
      hasSubstrS "u=" href = true →
      extract_bing_redirect href = unquote (fallbackVal href)) ∧
    (parseFails href = false → uParam href = none →
      hasSubstrS "u=" href = false →
      extract_bing_redirect href = href) := by
  have hne : href.data ≠ [] := (string_ne_empty_iff href).mp h
  refine ⟨?_, ?_, ?_, ?_⟩
  · intro hp
    cases hq : urlparseQueryE href.data with
    | error e =>
      cases e
      exact extract_of_parse_error href hne hq
    | ok q => simp [parseFails, hq] at hp
  · intro v hv
    cases hq : urlparseQueryE href.data with
    | error e => simp [uParam, hq] at hv
    | ok q =>
      cases hu : findUVal (parseQsl q) with
      | none => simp [uParam, hq, hu] at hv
      | some w =>
        have hvw : (⟨w⟩ : String) = v := by
          simpa [uParam, hq, hu] using hv
        rw [← hvw]
        exact extract_of_uParam_found href hne q w hq hu
  · intro _ hu hs
    cases hq : urlparseQueryE href.data with
    | error e => simp [parseFails, hq] at *
    | ok q =>
      cases hfu : findUVal (parseQsl q) with
      | some w => simp [uParam, hq, hfu] at hu
      | none =>
        have hsome : (findSub uEq href.data).isSome = true := by
          rw [findSub_isSome_eq_hasSubstr, ← uEq_eq_data]
          exact hs
        cases hfi : findSub uEq href.data with
        | none => rw [hfi] at hsome; simp at hsome
        | some i =>
          rw [extract_of_fallback href hne q i hq hfu hfi]
          unfold unquote fallbackVal
          rw [hfi]
  · intro _ hu hs
    cases hq : urlparseQueryE href.data with
    | error e => simp [parseFails, hq] at *
    | ok q =>
      cases hfu : findUVal (parseQsl q) with
      | some w => simp [uParam, hq, hfu] at hu
      | none =>
        have hnone : findSub uEq href.data = none := by
          rw [← Option.not_isSome_iff_eq_none]
          rw [findSub_isSome_eq_hasSubstr, ← uEq_eq_data]
          simp [hasSubstrS] at hs
          simp [hs]
        exact extract_of_no_u href hne q hq hfu hnone

/-- **C1** counterexample to the claim as stated: for
`href = "//[?u=x"`, URL parsing raises ("Invalid IPv6 URL"), no `u`
parameter is yielded, and the substring `u=` does occur — so the claim
demands the decoded fallback value `"x"` — yet the code returns `href`
unchanged, because the exception also skips the fallback. -/
theorem C1_counterexample :
    ("//[?u=x" : String) ≠ "" ∧
    parseFails "//[?u=x" = true ∧
    uParam "//[?u=x" = none ∧
    hasSubstrS "u=" "//[?u=x" = true ∧
    fallbackVal "//[?u=x" = "x" ∧ unquote "x" = "x" ∧
    extract_bing_redirect "//[?u=x" = "//[?u=x" ∧
    extract_bing_redirect "//[?u=x" ≠ unquote (fallbackVal "//[?u=x") := by
  refine ⟨by decide, by decide, by decide, by decide, rfl, rfl, rfl, by decide⟩

/-- **C1** witness: the amended theorem applied to a real Bing-style
wrapped link. -/
theorem C1_witness :
    uParam "https://www.bing.com/ck/a?p=1&u=https%3A%2F%2Fexample.com&h=2" =
      some "https://example.com" ∧
    extract_bing_redirect
        "https://www.bing.com/ck/a?p=1&u=https%3A%2F%2Fexample.com&h=2" =
      unquote "https://example.com" :=
  ⟨by decide,
    (C1_redirect_resolver_cases
        "https://www.bing.com/ck/a?p=1&u=https%3A%2F%2Fexample.com&h=2"
        (by decide)).2.1 "https://example.com" (by decide)⟩

/-- **C3** (confirmed).  The resolver is total by construction (it is a
Lean function; every Python exception inside it is modelled and caught),
and it returns `href` unchanged when `href` is empty, when URL parsing
fails, and when neither a `u` parameter nor a `u=` substring applies. -/
theorem C3_resolver_graceful_degradation (href : String) :
    (href = "" → extract_bing_redirect href = href) ∧
    (parseFails href = true → extract_bing_redirect href = href) ∧
    (uParam href = none → hasSubstrS "u=" href = false →
      extract_bing_redirect href = href) := by
  refine ⟨?_, ?_, ?_⟩
  · intro h
    subst h
    rfl
  · intro hp
    by_cases hne : href.data = []
    · rw [show href = "" from String.ext hne]
      rfl
    · cases hq : urlparseQueryE href.data with
      | error e =>
        cases e
        exact extract_of_parse_error href hne hq
      | ok q => simp [parseFails, hq] at hp
  · intro hu hs
    by_cases hne : href.data = []
    · rw [show href = "" from String.ext hne]
      rfl
    · cases hq : urlparseQueryE href.data with
      | error e =>
        cases e
        exact extract_of_parse_error href hne hq
      | ok q =>
        cases hfu : findUVal (parseQsl q) with
        | some w => simp [uParam, hq, hfu] at hu
        | none =>
          have hnone : findSub uEq href.data = none := by
            rw [← Option.not_isSome_iff_eq_none]
            rw [findSub_isSome_eq_hasSubstr, ← uEq_eq_data]
            simp [hasSubstrS] at hs
            simp [hs]
          exact extract_of_no_u href hne q hq hfu hnone

/-- **C3** witness: identity on the empty string and on an ordinary
non-redirect URL. -/
theorem C3_witness :
    extract_bing_redirect "" = "" ∧
    extract_bing_redirect "nba.com/page" = "nba.com/page" :=
  ⟨(C3_resolver_graceful_degradation "").1 rfl,
    (C3_resolver_graceful_degradation "nba.com/page").2.2 (by decide) (by decide)⟩

/-- **C4** (amended).  For a non-empty `href` the resolved target is
non-empty — except in exactly one situation, which the original claim
misses: when the `u=`-substring fallback fires and the delimited value
is empty (the first `u=` is immediately followed by `&` or by the end of
the string), the resolver returns the empty string. -/
theorem C4_resolved_target_empty_iff (href : String) (h : href ≠ "") :
    extract_bing_redirect href = "" ↔
      (parseFails href = false ∧ uParam href = none ∧
        hasSubstrS "u=" href = true ∧ fallbackVal href = "") := by
  have hne : href.data ≠ [] := (string_ne_empty_iff href).mp h
  cases hq : urlparseQueryE href.data with
  | error e =>
    cases e
    rw [extract_of_parse_error href hne hq]
    simp [parseFails, hq, h]
  | ok q =>
    cases hfu : findUVal (parseQsl q) with
    | some w =>
      have hw : w ≠ [] := findUVal_ne_nil q w hfu
      rw [extract_of_uParam_found href hne q w hq hfu]
      constructor
      · intro hE
        exfalso
        have hdat : unquoteL w = [] := by
          have := congrArg String.data hE
          simpa using this
        exact unquoteL_ne_nil w hw hdat
      · rintro ⟨-, hu, -, -⟩
        simp [uParam, hq, hfu] at hu
    | none =>
      cases hfi : findSub uEq href.data with
      | none =>
        have hhs : hasSubstrS "u=" href = false := by
          unfold hasSubstrS
          rw [uEq_eq_data, ← findSub_isSome_eq_hasSubstr, hfi]
          rfl
        rw [extract_of_no_u href hne q hq hfu hfi]
        simp [h, hhs]
      | some i =>
        have hhs : hasSubstrS "u=" href = true := by
          unfold hasSubstrS
          rw [uEq_eq_data, ← findSub_isSome_eq_hasSubstr, hfi]
          rfl
        have hfb : fallbackVal href =
            ⟨(href.data.drop (i + 2)).takeWhile (fun c => c ≠ '&')⟩ := by
          unfold fallbackVal
          rw [hfi]
        rw [extract_of_fallback href hne q i hq hfu hfi]
        constructor
        · intro hE
          have hX : (href.data.drop (i + 2)).takeWhile (fun c => c ≠ '&') = [] := by
            refine (unquoteL_eq_nil_iff _).mp ?_
            have := congrArg String.data hE
            simpa using this
          refine ⟨by simp [parseFails, hq], by simp [uParam, hq, hfu], hhs, ?_⟩
          rw [hfb, hX]
        · rintro ⟨-, -, -, hfv⟩
          rw [hfb] at hfv
          have hX : (href.data.drop (i + 2)).takeWhile (fun c => c ≠ '&') = [] := by
            have := congrArg String.data hfv
            simpa using this
          rw [hX]
          rfl

/-- **C4** counterexample to the claim as stated: `"u="` is a non-empty
href whose resolved target is the empty string. -/
theorem C4_counterexample :
    ("u=" : String) ≠ "" ∧ extract_bing_redirect "u=" = "" := by
  refine ⟨by decide, by decide⟩

/-- **C4** witness: a genuine wrapped redirect resolves to a non-empty
target (the exceptional situation of the amended claim does not hold, so
the target is non-empty). -/
theorem C4_witness : extract_bing_redirect "https://a.com/p?u=ok" ≠ "" := by
  intro hE
  have hcase := (C4_resolved_target_empty_iff "https://a.com/p?u=ok"
    (by decide)).mp hE
  have hu : uParam "https://a.com/p?u=ok" = some "ok" := by decide
  rw [hu] at hcase
  simp at hcase

/-- **C2** (amended).  Scanning in document order, the heuristic selects
the first candidate passing the code's keyword test — `scorecard` or
`cricket` in the lower-cased href or title, but `espncricinfo` and
`cricbuzz` in the lower-cased href only; with no match it selects
index 0 of a non-empty list; an empty list yields no selection. -/
theorem C2_ranking_first_match (cands : List (String × String)) :
    (chooseCandidate cands = none ↔ cands = []) ∧
    (∀ i, chooseCandidate cands = some i →
      ∃ c, cands.get? i = some c ∧
        ((matchesKeyword c.1 c.2 = true ∧
            ∀ j d, j < i → cands.get? j = some d →
              matchesKeyword d.1 d.2 = false) ∨
          (i = 0 ∧ ∀ d ∈ cands, matchesKeyword d.1 d.2 = false))) := by
  constructor
  · constructor
    · intro h
      unfold chooseCandidate at h
      cases haux : chooseCandidateAux 0 cands with
      | some j => rw [haux] at h; simp at h
      | none =>
        rw [haux] at h
        by_cases he : cands.isEmpty
        · simpa using he
        · rw [if_neg he] at h; simp at h
    · intro h
      subst h
      rfl
  · intro i hi
    unfold chooseCandidate at hi
    cases haux : chooseCandidateAux 0 cands with
    | some j =>
      rw [haux] at hi
      have hj : j = i := by simpa using hi
      subst hj
      obtain ⟨-, c, hc, hm, hprev⟩ := chooseCandidateAux_eq_some cands 0 j haux
      refine ⟨c, by simpa using hc, Or.inl ⟨hm, ?_⟩⟩
      intro j' d hj' hd
      exact hprev j' d (by simpa using hj') hd
    | none =>
      rw [haux] at hi
      have hall := (chooseCandidateAux_eq_none cands 0).mp haux
      by_cases he : cands.isEmpty
      · rw [if_pos he] at hi; simp at hi
      · rw [if_neg he] at hi
        have hi0 : i = 0 := by
          have := Option.some.inj hi
          omega
        subst hi0
        match cands, he with
        | c :: rest, _ => exact ⟨c, rfl, Or.inr ⟨rfl, hall⟩⟩

/-- **C2** counterexample to the claim as stated: the claim's test (OR
across href and title for every keyword) accepts a candidate whose
TITLE contains the trusted-domain substring `espncricinfo`, but the code
checks the domain substrings against the href only, so it falls back to
index 0 instead of selecting that candidate. -/
theorem C2_counterexample :
    claimMatches "a" "b" = false ∧
    claimMatches "espncricinfo" "x" = true ∧
    matchesKeyword "espncricinfo" "x" = false ∧
    chooseCandidate [("a", "b"), ("espncricinfo", "x")] = some 0 := by
  refine ⟨by decide, by decide, by decide, by decide⟩

/-- **C2** witness: the amended theorem instantiated where the keyword
match genuinely decides (index 1 beats document order). -/
theorem C2_witness :
    ∃ c, [("a", "b.com/x"), ("t", "x.com/scorecard")].get? 1 = some c ∧
      ((matchesKeyword c.1 c.2 = true ∧
          ∀ j d, j < 1 →
            [("a", "b.com/x"), ("t", "x.com/scorecard")].get? j = some d →
            matchesKeyword d.1 d.2 = false) ∨
        (1 = 0 ∧ ∀ d ∈ [("a", "b.com/x"), ("t", "x.com/scorecard")],
          matchesKeyword d.1 d.2 = false)) :=
  (C2_ranking_first_match [("a", "b.com/x"), ("t", "x.com/scorecard")]).2
    1 (by decide)

/-- **C5** (confirmed).  The presence loop attempts the selector
expressions strictly in order, reports the first that matches and
attempts nothing after it; with no match it reports not-found (no
error) after attempting all of them.  In particular, for `[A, B, C]`
with `A` failing and `B` matching, it reports `B` and never attempts
`C`. -/
theorem C5_selector_resolution_order (hits : String → Bool)
    (sels : List String) (A B C : String)
    (hA : hits A = false) (hB : hits B = true) :
    ((∃ pre s post, sels = pre ++ s :: post ∧ hits s = true ∧
        (∀ t ∈ pre, hits t = false) ∧
        firstMatching hits sels = some s ∧
        attemptedSelectors hits sels = pre ++ [s]) ∨
      (firstMatching hits sels = none ∧
        attemptedSelectors hits sels = sels ∧
        ∀ t ∈ sels, hits t = false)) ∧
    (firstMatching hits [A, B, C] = some B ∧
      attemptedSelectors hits [A, B, C] = [A, B]) := by
  constructor
  · induction sels with
    | nil => exact Or.inr ⟨rfl, rfl, by simp⟩
    | cons s rest ih =>
      by_cases hs : hits s = true
      · exact Or.inl ⟨[], s, rest, by simp, hs, by simp,
          by simp [firstMatching, hs], by simp [attemptedSelectors, hs]⟩
      · have hs' : hits s = false := by simpa using hs
        rcases ih with ⟨pre, m, post, hsels, hm, hpre, hfirst, hatt⟩ |
          ⟨h1, h2, h3⟩
        · refine Or.inl ⟨s :: pre, m, post, by simp [hsels], hm, ?_,
            by simp [firstMatching, hs', hfirst],
            by simp [attemptedSelectors, hs', hatt]⟩
          intro t ht
          rcases List.mem_cons.mp ht with h | h
          · subst h; exact hs'
          · exact hpre t h
        · refine Or.inr ⟨by simp [firstMatching, hs', h1],
            by simp [attemptedSelectors, hs', h2], ?_⟩
          intro t ht
          rcases List.mem_cons.mp ht with h | h
          · subst h; exact hs'
          · exact h3 t h
  · exact ⟨by simp [firstMatching, hA, hB],
      by simp [attemptedSelectors, hA, hB]⟩

/-- **C5** witness: the `[A, B, C]` scenario with only `B` matching. -/
theorem C5_witness :
    firstMatching (fun s => s == "B") ["A", "B", "C"] = some "B" ∧
    attemptedSelectors (fun s => s == "B") ["A", "B", "C"] = ["A", "B"] :=
  (C5_selector_resolution_order (fun s => s == "B") ["A", "B", "C"]
    "A" "B" "C" (by decide) (by decide)).2

/-- **C6** (confirmed).  For a resolved target that is not an absolute
URL the navigator's first action is the click — script navigation is
never attempted first — each script-level navigation in the trace uses
the raw unresolved href, no direct load occurs, and the trace ends with
the snapshot whether or not the click and the script navigation
succeed. -/
theorem C6_navigator_click_before_script (chosenHref : String)
    (clickOk jsOk : Bool)
    (h : isAbsoluteUrl (extract_bing_redirect chosenHref) = false) :
    (navigatorTrace chosenHref clickOk jsOk).head? = some NavAction.click ∧
    (∀ u, NavAction.jsNavigate u ∈ navigatorTrace chosenHref clickOk jsOk →
      u = chosenHref) ∧
    (∀ u, NavAction.gotoDirect u ∉ navigatorTrace chosenHref clickOk jsOk) ∧
    (navigatorTrace chosenHref clickOk jsOk).getLast? =
      some NavAction.snapshot := by
  refine ⟨?_, ?_, ?_, ?_⟩ <;>
    (by_cases hc : clickOk <;> by_cases he : chosenHref.data.isEmpty <;>
      simp [navigatorTrace, h, hc, he])

/-- **C6** witness: a relative target with a failing click and failing
script navigation still clicks first, uses the raw href, and reaches the
snapshot. -/
theorem C6_witness :
    isAbsoluteUrl (extract_bing_redirect "/rel") = false ∧
    (navigatorTrace "/rel" false false).head? = some NavAction.click ∧
    (navigatorTrace "/rel" false false).getLast? = some NavAction.snapshot :=
  ⟨by decide,
    (C6_navigator_click_before_script "/rel" false false (by decide)).1,
    (C6_navigator_click_before_script "/rel" false false (by decide)).2.2.2⟩

/-- **C7** (confirmed).  When no selector strategy matched, the run
writes exactly one markup file, named `bing_noresults_<ts>.html` (the
`noresults` discriminator sits in its prefix before the timestamp),
writes no screenshot, and ends in the `noResults` terminal state. -/
theorem C7_noresults_diagnostic (cands : List (String × String)) (ts : Nat) :
    mainModel false cands ts =
      (RunOutcome.noResults,
        [Artifact.htmlFile ("bing_noresults_" ++ toString ts ++ ".html")]) ∧
    (∀ n, Artifact.screenshotFile n ∉ (mainModel false cands ts).2) ∧
    hasSubstrS "noresults" ("bing_noresults_" ++ toString ts ++ ".html") =
      true := by
  refine ⟨rfl, ?_, ?_⟩
  · intro n hn
    simp [mainModel] at hn
  · unfold hasSubstrS
    have hdata : ("bing_noresults_" ++ toString ts ++ ".html").data
        = "bing_noresults_".data ++ ((toString ts : String) ++ ".html").data := by
      simp [String.data_append, List.append_assoc]
    rw [hdata]
    exact hasSubstr_append_left _ _ _ (by decide)

/-- **C7** witness: the diagnostic path at a concrete timestamp. -/
theorem C7_witness :
    mainModel false [] 3 =
      (RunOutcome.noResults,
        [Artifact.htmlFile ("bing_noresults_" ++ toString 3 ++ ".html")]) :=
  (C7_noresults_diagnostic [] 3).1

/-- **C8** (code bug).  Inside the scanning loop a raising read degrades
to `""` as the spec demands, but the index-0 fallback re-reads the first
element with no `try`: when no candidate passes the keyword test and the
first element's `inner_text()` raises, the exception escapes to the
top-level handler and the run aborts instead of degrading. -/
theorem C8_fallback_extraction_aborts :
    scanTitle ⟨Except.error (), Except.ok (some "http://a")⟩ = "" ∧
    scanHref ⟨Except.ok "t", Except.error ()⟩ = "" ∧
    extractionRun [⟨Except.error (), Except.ok (some "http://a")⟩] =
      Except.error () :=
  ⟨rfl, rfl, rfl⟩

/-- **C9** (amended).  The search URL is the fixed endpoint plus the
query with spaces replaced by `+`; this coincides with URL-encoding
exactly for queries of alphanumerics and spaces (such as the program's
fixed query), which is the most the code guarantees. -/
theorem C9_search_url_encoding (q : String)
    (h : ∀ c ∈ q.data, c.isAlphanum = true ∨ c = ' ') :
    searchUrl q = "https://www.bing.com/search?q=" ++ urlEncodeQuery q := by
  have key : ∀ l : List Char, (∀ c ∈ l, c.isAlphanum = true ∨ c = ' ') →
      spaceToPlus l =
        (l.map fun c =>
          if isSafeQueryChar c then [c]
          else if c = ' ' then ['+']
          else ((utf8EncodeChar c).map percentByte).flatten).flatten := by
    intro l hl
    induction l with
    | nil => rfl
    | cons c t ih =>
      have hc := hl c (List.mem_cons_self c t)
      have ht : ∀ x ∈ t, x.isAlphanum = true ∨ x = ' ' :=
        fun x hx => hl x (List.mem_cons_of_mem c hx)
      rcases hc with hc | hc
      · have hsafe : isSafeQueryChar c = true := by
          simp [isSafeQueryChar, hc]
        have hcsp : c ≠ ' ' := by
          intro hsp
          subst hsp
          exact absurd hc (by decide)
        have ih' := ih ht
        simp only [spaceToPlus] at ih'
        simp [spaceToPlus, hsafe, hcsp, ih']
      · subst hc
        have hs : isSafeQueryChar ' ' = false := by decide
        have ih' := ih ht
        simp only [spaceToPlus] at ih'
        simp [spaceToPlus, hs, ih']
  apply String.ext
  rw [String.data_append]
  exact congrArg
    (fun l => "https://www.bing.com/search?q=".data ++ l) (key q.data h)

/-- **C9** counterexample to the claim as stated: for the query `"a&b"`
the code's space-replacement is not URL-encoding — the `&` is passed
through unescaped, where URL-encoding produces `%26`. -/
theorem C9_counterexample :
    searchUrl "a&b" ≠ "https://www.bing.com/search?q=" ++ urlEncodeQuery "a&b" ∧
    searchUrl "a&b" = "https://www.bing.com/search?q=a&b" ∧
    "https://www.bing.com/search?q=" ++ urlEncodeQuery "a&b" =
      "https://www.bing.com/search?q=a%26b" := by
  refine ⟨by decide, rfl, by decide⟩

/-- **C9** witness: the program's fixed query is alphanumerics and
spaces, so there the construction does coincide with URL-encoding. -/
theorem C9_witness :
    (∀ c ∈ QUERY.data, c.isAlphanum = true ∨ c = ' ') ∧
    searchUrl QUERY = "https://www.bing.com/search?q=" ++ urlEncodeQuery QUERY :=
  ⟨by decide, C9_search_url_encoding QUERY (by decide)⟩

/-- **C10** (confirmed).  On the success path the run ends completed
with exactly one screenshot and one markup file, both named from the
single timestamp captured once (`scorecard_<ts>.png` /
`scorecard_<ts>.html`). -/
theorem C10_success_snapshot_pair (cands : List (String × String)) (ts : Nat)
    (h : chooseCandidate cands ≠ none) :
    (mainModel true cands ts).1 = RunOutcome.completed ∧
    (mainModel true cands ts).2 =
      [Artifact.screenshotFile ("scorecard_" ++ toString ts ++ ".png"),
        Artifact.htmlFile ("scorecard_" ++ toString ts ++ ".html")] := by
  cases hc : chooseCandidate cands with
  | none => exact absurd hc h
  | some i => exact ⟨by simp [mainModel, hc], by simp [mainModel, hc]⟩

/-- **C10** witness: a concrete run with one candidate and timestamp 7. -/
theorem C10_witness :
    (mainModel true [("t", "h")] 7).1 = RunOutcome.completed ∧
    (mainModel true [("t", "h")] 7).2 =
      [Artifact.screenshotFile ("scorecard_" ++ toString 7 ++ ".png"),
        Artifact.htmlFile ("scorecard_" ++ toString 7 ++ ".html")] :=
  C10_success_snapshot_pair [("t", "h")] 7 (by decide)

end WebPipeline

